import Mathlib

/-!
# Callback registry and edge dispatch of `source/py_gpio.c`

A shallow embedding of the Python-callback registry kept by `py_gpio.c`
(the singly linked list `py_callbacks`), of the dispatcher
`run_py_callbacks`, of the registration and removal entry points and of
`py_wait_for_edge`, followed by theorems about them.

Conventions of the embedding.

* The linked list `py_callbacks` is a `List py_callback`; the position of a
  node in the list stands for its address.
* `unsigned int` values are naturals below `2^32`, `unsigned long long`
  values naturals below `2^64`; arithmetic that can wrap carries an explicit
  `%`.
* `gettimeofday` is an input: a clock is a function `Nat → Nat` whose value
  at `n` is the microsecond reading returned by the `n`-th call still to
  come.  An edge "at time `now`" is a dispatch under the constant clock.
* A Python callable is known by a number (its object identity).  Calling it
  is recorded in a log; the callables considered here do not modify the
  registry, so the byte re-read after the call (`cookie[1]`) is the byte read
  before it (`cookie[0]`).
* Functions of `event_gpio.c`, `common.c` and the constants of the headers
  are not part of this file of the repository; they are parameters
  (`Externals`).
-/

namespace PyGpio

/-! ## Data model -/

/-- One node of the list `py_callbacks` (`struct py_callback`), without its
`next` pointer: `channel` is the 32-byte buffer, `py_cb` the identity of the
Python callable. -/
structure py_callback where
  channel : List Nat
  gpio : Nat
  py_cb : Nat
  lastcall : Nat
  bouncetime : Nat
deriving DecidableEq, Repr

/-- The string a `char *` denotes: the bytes before the first NUL. -/
def cstr (mem : List Nat) : List Nat :=
  mem.takeWhile (fun b => b != 0)

/-- The byte `memcpy(&cookie[k], cb, 1)` reads: the first byte of the node,
which is `channel[0]`. -/
def first_byte (cb : py_callback) : Nat :=
  cb.channel.headD 0

/-- One `PyObject_CallFunction(cb->py_cb, "s", cb->channel)`: `node` is the
position of `cb` in the list, `arg` the string passed. -/
structure Call where
  node : Nat
  py_cb : Nat
  arg : List Nat
deriving DecidableEq, Repr

/-! ## `run_py_callbacks` -/

/-- The test of line 237,
`cb->bouncetime == 0 || timenow - cb->lastcall > cb->bouncetime*1000
 || cb->lastcall == 0 || cb->lastcall > timenow`:
the difference is taken in `unsigned long long`, the product in
`unsigned int`. -/
def fire_condition (cb : py_callback) (timenow : Nat) : Bool :=
  cb.bouncetime == 0
    || decide ((cb.bouncetime * 1000) % 2 ^ 32 < (timenow + 2 ^ 64 - cb.lastcall) % 2 ^ 64)
    || cb.lastcall == 0
    || decide (timenow < cb.lastcall)

/-- The variables of the `while` loop of `run_py_callbacks`: the two cookie
bytes, the clock still to be read, the nodes already passed (with the values
the loop left in them), the calls made so far, and the position of the node
at which `break` left the loop, if it did. -/
structure LoopState where
  cookie0 : Nat
  cookie1 : Nat
  clock : Nat → Nat
  visited : List py_callback
  calls : List Call
  broke : Option Nat

/-- One iteration of the `while` loop on node `cb`.  After `break` the
remaining nodes are left as they are. -/
def loop_body (gpio : Nat) (s : LoopState) (cb : py_callback) : LoopState :=
  if s.broke.isSome then
    { s with visited := s.visited ++ [cb] }
  else if cb.gpio = gpio then
    let cookie0 := first_byte cb
    let timenow := s.clock 0 % 2 ^ 64
    let fire := fire_condition cb timenow
    -- inside the `if`: `cb->lastcall = timenow`, the call, `cookie[1]` re-read
    let cb1 := if fire then { cb with lastcall := timenow } else cb
    let cookie1 := if fire then first_byte cb1 else s.cookie1
    let calls := if fire then s.calls ++ [⟨s.visited.length, cb.py_cb, cstr cb.channel⟩]
                 else s.calls
    let clock := fun n => s.clock (n + 1)
    if cookie0 ≠ cookie1 then
      { cookie0 := cookie0, cookie1 := cookie1, clock := clock,
        visited := s.visited ++ [cb1], calls := calls, broke := some s.visited.length }
    else
      { cookie0 := cookie0, cookie1 := cookie1, clock := clock,
        visited := s.visited ++ [{ cb1 with lastcall := timenow }], calls := calls,
        broke := none }
  else
    { s with visited := s.visited ++ [cb] }

/-- The loop state on entry: `cookie[2] = {0}`, `cb = py_callbacks`. -/
def loop_init (clock : Nat → Nat) : LoopState :=
  { cookie0 := 0, cookie1 := 0, clock := clock, visited := [], calls := [], broke := none }

/-- The function `run_py_callbacks(gpio)` on the registry `L` under the
given clock.  In the result `visited` is the registry afterwards and `calls`
the handlers invoked, in order. -/
def run_py_callbacks (gpio : Nat) (clock : Nat → Nat) (L : List py_callback) : LoopState :=
  L.foldl (loop_body gpio) (loop_init clock)

/-- Whether the handler of the node at position `k` was invoked. -/
def invoked (k : Nat) (calls : List Call) : Bool :=
  calls.any (fun c => c.node == k)

/-- One edge delivered at time `now`: every clock reading of the dispatch is
`now`. -/
def on_edge (gpio now : Nat) (L : List py_callback) : LoopState :=
  run_py_callbacks gpio (fun _ => now) L

/-- The registry after the edges at times `ts` were delivered, one dispatch
each, in order. -/
def registry_after (gpio : Nat) (ts : List Nat) (L : List py_callback) : List py_callback :=
  ts.foldl (fun R t => (on_edge gpio t R).visited) L

/-- The log of a sequence of edges: each timestamp with the calls its
dispatch made. -/
def edge_log (gpio : Nat) : List Nat → List py_callback → List (Nat × List Call)
  | [], _ => []
  | t :: ts, L => (t, (on_edge gpio t L).calls) :: edge_log gpio ts (on_edge gpio t L).visited

/-- The timestamp of the most recent edge of a log at which the handler of
node `k` was invoked. -/
def last_invocation (k : Nat) (log : List (Nat × List Call)) : Option Nat :=
  ((log.filter (fun p => invoked k p.2)).getLast?).map Prod.fst

/-- Two nodes that differ at most in `lastcall`. -/
def same_but_lastcall (a b : py_callback) : Prop :=
  a.channel = b.channel ∧ a.gpio = b.gpio ∧ a.py_cb = b.py_cb ∧ a.bouncetime = b.bouncetime

/-- The loop state `r` continues `s` over `n` further nodes: the nodes passed
and the calls made are kept, the new calls are calls of the new nodes, a
`break` stays, and a constant clock stays constant. -/
def Extends (s r : LoopState) (n : Nat) : Prop :=
  (∃ X, r.visited = s.visited ++ X ∧ X.length = n) ∧
  (∃ C, r.calls = s.calls ++ C ∧
    ∀ c ∈ C, s.visited.length ≤ c.node ∧ c.node < s.visited.length + n) ∧
  (∀ j, s.broke = some j → r.broke = some j) ∧
  (∀ j, r.broke = some j →
    s.broke = some j ∨ (s.visited.length ≤ j ∧ j < s.visited.length + n)) ∧
  (∀ t, (∀ m, s.clock m = t) → ∀ m, r.clock m = t)

/-! ## `add_py_callback` -/

/-- The buffer `new_py_cb->channel` after `memset(..., 0, 32)` and
`strncpy(..., channel, 31)`. -/
def new_channel (channel : List Nat) : List Nat :=
  (cstr channel).take 31 ++ List.replicate (32 - ((cstr channel).take 31).length) 0

/-- The tail insertion of `add_py_callback`: an empty list becomes the new
node, otherwise the walk `while (cb->next != NULL)` reaches the last node and
links the new node behind it. -/
def append_node (new_py_cb : py_callback) : List py_callback → List py_callback
  | [] => [new_py_cb]
  | cb :: rest => cb :: append_node new_py_cb rest

/-- The registry part of `add_py_callback(channel, gpio, bouncetime, cb_func)`:
`none` is the return value `-1` (no memory), `some` the list after return
value `0`. -/
def add_py_callback (malloc_ok : Bool) (channel : List Nat) (gpio bouncetime cb_func : Nat)
    (L : List py_callback) : Option (List py_callback) :=
  if malloc_ok then
    some (append_node
      { channel := new_channel channel, gpio := gpio, py_cb := cb_func,
        lastcall := 0, bouncetime := bouncetime } L)
  else none

/-! ## The Python entry points -/

/-- What `py_gpio.c` uses of `constants.h`, `common.c` and `event_gpio.c`,
over a state `Ev` of the event layer: `get_gpio_number` gives the pin of a
channel name if it resolves; `blocking_wait_for_edge` gives its `int` result. -/
structure Externals (Ev : Type) where
  INPUT : Int
  RISING_EDGE : Int
  FALLING_EDGE : Int
  BOTH_EDGE : Int
  get_gpio_number : List Nat → Option Nat
  gpio_is_evented : Ev → Nat → Bool
  add_edge_callback : Ev → Nat → Ev
  remove_edge_detect : Ev → Nat → Ev
  event_cleanup : Ev → Ev
  blocking_wait_for_edge : Ev → Nat → Int → Int → Int × Ev

/-- The state the entry points work on: the file-static list `py_callbacks`,
`module_setup`, `gpio_direction[]`, and the state of the event layer. -/
structure State (Ev : Type) where
  py_callbacks : List py_callback
  module_setup : Bool
  gpio_direction : Nat → Int
  event : Ev

/-- The exceptions the entry points below set. -/
inductive PyExc where
  | TypeError_not_callable
  | RuntimeError_not_input
  | RuntimeError_no_event_detect
  | ValueError_edge
  | RuntimeError_already_enabled
  | RuntimeError_wait (result : Int)
  | MemoryError
deriving DecidableEq, Repr

/-- The value an entry point returns: `None`, `False`, or `NULL` with the
exception this file set (`none` when the callee that failed set it). -/
inductive PyRet where
  | Py_None
  | Py_False
  | NULL (exc : Option PyExc)
deriving DecidableEq, Repr

/-- The function `py_add_event_callback` after argument parsing; `callable`
is the result of `PyCallable_Check(cb_func)`. -/
def py_add_event_callback {Ev : Type} (X : Externals Ev) (malloc_ok callable : Bool)
    (channel : List Nat) (cb_func bouncetime : Nat) (st : State Ev) : PyRet × State Ev :=
  if !callable then (.NULL (some .TypeError_not_callable), st)
  else match X.get_gpio_number channel with
    | none => (.NULL none, st)
    | some gpio =>
      if !st.module_setup || st.gpio_direction gpio != X.INPUT then
        (.NULL (some .RuntimeError_not_input), st)
      else if !X.gpio_is_evented st.event gpio then
        (.NULL (some .RuntimeError_no_event_detect), st)
      else match add_py_callback malloc_ok channel gpio bouncetime cb_func st.py_callbacks with
        | none => (.NULL (some .MemoryError), st)
        | some L =>
          (.Py_None, { st with py_callbacks := L, event := X.add_edge_callback st.event gpio })

/-- The loop of `py_remove_event_detect`: a node of the pin is unlinked and
freed, any other node is kept and becomes `prev`. -/
def remove_loop (gpio : Nat) : List py_callback → List py_callback
  | [] => []
  | cb :: rest => if cb.gpio = gpio then remove_loop gpio rest else cb :: remove_loop gpio rest

/-- The function `py_remove_event_detect` after argument parsing. -/
def py_remove_event_detect {Ev : Type} (X : Externals Ev) (channel : List Nat)
    (st : State Ev) : PyRet × State Ev :=
  match X.get_gpio_number channel with
  | none => (.NULL none, st)
  | some gpio =>
    (.Py_None, { st with py_callbacks := remove_loop gpio st.py_callbacks,
                         event := X.remove_edge_detect st.event gpio })

/-- The function `py_cleanup`: it calls `event_cleanup()` and returns `None`.
The list `py_callbacks` is static in `py_gpio.c`, so the event layer has no
access to it. -/
def py_cleanup {Ev : Type} (X : Externals Ev) (st : State Ev) : PyRet × State Ev :=
  (.Py_None, { st with event := X.event_cleanup st.event })

/-- The outcome of `py_wait_for_edge`: the value returned, the state, and the
calls of `blocking_wait_for_edge` it made (pin, edge, timeout). -/
structure WaitOut (Ev : Type) where
  ret : PyRet
  state : State Ev
  waits : List (Nat × Int × Int)

/-- The function `py_wait_for_edge` after argument parsing. -/
def py_wait_for_edge {Ev : Type} (X : Externals Ev) (channel : List Nat) (edge timeout : Int)
    (st : State Ev) : WaitOut Ev :=
  match X.get_gpio_number channel with
  | none => ⟨.NULL none, st, []⟩
  | some gpio =>
    if !st.module_setup || st.gpio_direction gpio != X.INPUT then
      ⟨.NULL (some .RuntimeError_not_input), st, []⟩
    else if edge != X.RISING_EDGE && edge != X.FALLING_EDGE && edge != X.BOTH_EDGE then
      ⟨.NULL (some .ValueError_edge), st, []⟩
    else
      let res := X.blocking_wait_for_edge st.event gpio edge timeout
      let st1 := { st with event := res.2 }
      let waits := [(gpio, edge, timeout)]
      if res.1 = 0 then ⟨.Py_None, st1, waits⟩
      else if res.1 = -1 then ⟨.Py_False, st1, waits⟩
      else if res.1 = 2 then ⟨.NULL (some .RuntimeError_already_enabled), st1, waits⟩
      else ⟨.NULL (some (.RuntimeError_wait res.1)), st1, waits⟩

/-! ## Concrete inputs -/

/-- The bytes of the channel name P8_7, in a 32-byte buffer. -/
def chP8_7 : List Nat := [80, 56, 95, 55] ++ List.replicate 28 0

/-- A node of pin 7 with the given callable, `lastcall` and `bouncetime`. -/
def node7 (py_cb lastcall bouncetime : Nat) : py_callback :=
  { channel := chP8_7, gpio := 7, py_cb := py_cb, lastcall := lastcall, bouncetime := bouncetime }

/-- A sample event layer, used for concrete instances only: its state is
the list of pins under event detection, only the name P8_7 resolves (to pin
7), cleanup stops every watch, and the blocking wait answers 2 on a watched
pin, 0 when asked to wait forever and -1 otherwise. -/
def sampleX : Externals (List Nat) :=
  { INPUT := 0, RISING_EDGE := 1, FALLING_EDGE := 2, BOTH_EDGE := 3,
    get_gpio_number := fun ch => if cstr ch = [80, 56, 95, 55] then some 7 else none,
    gpio_is_evented := fun ev g => ev.contains g,
    add_edge_callback := fun ev _ => ev,
    remove_edge_detect := fun ev g => ev.filter (fun x => x != g),
    event_cleanup := fun _ => [],
    blocking_wait_for_edge := fun ev g _ timeout =>
      if ev.contains g then (2, ev) else if timeout < 0 then (0, ev) else (-1, ev) }

/-- A sample module state: pin 7 set up as input and under event detection,
registry `L`. -/
def sampleState (L : List py_callback) : State (List Nat) :=
  { py_callbacks := L, module_setup := true, gpio_direction := fun g => if g = 7 then 0 else -1,
    event := [7] }

/-! ## Theorems -/

/-! ### The loop: what one iteration and a run of iterations keep -/

theorem Extends.refl (s : LoopState) : Extends s s 0 := by
  refine ⟨⟨[], by simp, rfl⟩, ⟨[], by simp, by simp⟩, fun j h => h, fun j h => Or.inl h,
    fun t h => h⟩

theorem Extends.trans {s r q : LoopState} {n m : Nat} (h1 : Extends s r n)
    (h2 : Extends r q m) : Extends s q (n + m) := by
  obtain ⟨⟨X, hX, hXn⟩, ⟨C, hC, hCn⟩, hb1, hb1r, hc1⟩ := h1
  obtain ⟨⟨Y, hY, hYm⟩, ⟨D, hD, hDm⟩, hb2, hb2r, hc2⟩ := h2
  have hlen : r.visited.length = s.visited.length + n := by simp [hX, hXn]
  refine ⟨⟨X ++ Y, by simp [hY, hX], by simp [hXn, hYm]⟩, ⟨C ++ D, by simp [hD, hC], ?_⟩,
    fun j h => hb2 j (hb1 j h), ?_, fun t h => hc2 t (hc1 t h)⟩
  · intro c hc
    rcases List.mem_append.1 hc with h | h
    · have := hCn c h
      omega
    · have := hDm c h
      omega
  · intro j hj
    rcases hb2r j hj with h | h
    · rcases hb1r j h with h | h
      · exact Or.inl h
      · exact Or.inr (by omega)
    · exact Or.inr (by omega)

theorem loop_body_broke (gpio : Nat) (s : LoopState) (cb : py_callback) (j : Nat)
    (hb : s.broke = some j) :
    loop_body gpio s cb = { s with visited := s.visited ++ [cb] } := by
  simp [loop_body, hb]

theorem loop_body_other (gpio : Nat) (s : LoopState) (cb : py_callback)
    (hg : cb.gpio ≠ gpio) :
    loop_body gpio s cb = { s with visited := s.visited ++ [cb] } := by
  simp [loop_body, hg]

theorem loop_body_fire (gpio : Nat) (s : LoopState) (cb : py_callback)
    (hb : s.broke = none) (hg : cb.gpio = gpio)
    (hf : fire_condition cb (s.clock 0 % 2 ^ 64) = true) :
    loop_body gpio s cb =
      { cookie0 := first_byte cb, cookie1 := first_byte cb, clock := fun n => s.clock (n + 1),
        visited := s.visited ++ [{ cb with lastcall := s.clock 0 % 2 ^ 64 }],
        calls := s.calls ++ [⟨s.visited.length, cb.py_cb, cstr cb.channel⟩],
        broke := none } := by
  simp only [loop_body, hb, hg, hf, first_byte, Option.isSome_none, Bool.false_eq_true,
    if_false, if_true, ne_eq, not_true_eq_false]

theorem loop_body_skip_break (gpio : Nat) (s : LoopState) (cb : py_callback)
    (hb : s.broke = none) (hg : cb.gpio = gpio)
    (hf : fire_condition cb (s.clock 0 % 2 ^ 64) = false) (hc : first_byte cb ≠ s.cookie1) :
    loop_body gpio s cb =
      { cookie0 := first_byte cb, cookie1 := s.cookie1, clock := fun n => s.clock (n + 1),
        visited := s.visited ++ [cb], calls := s.calls, broke := some s.visited.length } := by
  simp only [loop_body, hb, hg, hf, hc, Option.isSome_none, Bool.false_eq_true,
    if_false, if_true, ne_eq, not_false_eq_true]

theorem loop_body_skip_pass (gpio : Nat) (s : LoopState) (cb : py_callback)
    (hb : s.broke = none) (hg : cb.gpio = gpio)
    (hf : fire_condition cb (s.clock 0 % 2 ^ 64) = false) (hc : first_byte cb = s.cookie1) :
    loop_body gpio s cb =
      { cookie0 := first_byte cb, cookie1 := s.cookie1, clock := fun n => s.clock (n + 1),
        visited := s.visited ++ [{ cb with lastcall := s.clock 0 % 2 ^ 64 }],
        calls := s.calls, broke := none } := by
  simp only [loop_body, hb, hg, hf, hc, Option.isSome_none, Bool.false_eq_true,
    if_false, if_true, ne_eq, not_true_eq_false]

theorem loop_body_extends (gpio : Nat) (s : LoopState) (cb : py_callback) :
    Extends s (loop_body gpio s cb) 1 := by
  have keep : Extends s { s with visited := s.visited ++ [cb] } 1 :=
    ⟨⟨[cb], rfl, rfl⟩, ⟨[], by simp, by simp⟩, fun j h => h, fun j h => Or.inl h,
      fun t h => h⟩
  cases hb : s.broke with
  | some j =>
    rw [loop_body_broke gpio s cb j hb]
    exact keep
  | none =>
    by_cases hg : cb.gpio = gpio
    · cases hf : fire_condition cb (s.clock 0 % 2 ^ 64) with
      | true =>
        rw [loop_body_fire gpio s cb hb hg hf]
        refine ⟨⟨_, rfl, rfl⟩, ⟨_, rfl, ?_⟩, ?_, ?_, ?_⟩
        · intro c hc
          simp only [List.mem_singleton] at hc
          subst hc
          simp
        · intro j h
          simp [hb] at h
        · intro j h
          simp at h
        · intro t h m
          exact h (m + 1)
      | false =>
        by_cases hc : first_byte cb = s.cookie1
        · rw [loop_body_skip_pass gpio s cb hb hg hf hc]
          refine ⟨⟨_, rfl, rfl⟩, ⟨[], by simp, by simp⟩, ?_, ?_, ?_⟩
          · intro j h
            simp [hb] at h
          · intro j h
            simp at h
          · intro t h m
            exact h (m + 1)
        · rw [loop_body_skip_break gpio s cb hb hg hf hc]
          refine ⟨⟨_, rfl, rfl⟩, ⟨[], by simp, by simp⟩, ?_, ?_, ?_⟩
          · intro j h
            simp [hb] at h
          · intro j h
            simp only [Option.some.injEq] at h
            right
            omega
          · intro t h m
            exact h (m + 1)
    · rw [loop_body_other gpio s cb hg]
      exact keep

theorem foldl_extends (gpio : Nat) (L : List py_callback) (s : LoopState) :
    Extends s (L.foldl (loop_body gpio) s) L.length := by
  induction L generalizing s with
  | nil => exact Extends.refl s
  | cons cb rest ih =>
    have h := Extends.trans (loop_body_extends gpio s cb) (ih (loop_body gpio s cb))
    simpa [Nat.add_comm] using h

theorem fire_condition_of_never_called (cb : py_callback) (t : Nat) (h : cb.lastcall = 0) :
    fire_condition cb t = true := by
  simp [fire_condition, h]

/-! ### The outcome of a dispatch for one node -/

theorem getElem?_split {α : Type} (L : List α) (k : Nat) (e : α) (hk : L[k]? = some e) :
    ∃ pre post, L = pre ++ e :: post ∧ pre.length = k := by
  induction L generalizing k with
  | nil => simp at hk
  | cons a rest ih =>
    cases k with
    | zero =>
      simp only [List.getElem?_cons_zero, Option.some.injEq] at hk
      exact ⟨[], rest, by simp [hk], rfl⟩
    | succ k =>
      simp only [List.getElem?_cons_succ] at hk
      obtain ⟨pre, post, h1, h2⟩ := ih k hk
      exact ⟨a :: pre, post, by simp [h1], by simp [h2]⟩

theorem invoked_append (k : Nat) (A B : List Call) :
    invoked k (A ++ B) = (invoked k A || invoked k B) := by
  simp [invoked, List.any_append]

theorem invoked_eq_false (k : Nat) (C : List Call) (h : ∀ c ∈ C, c.node ≠ k) :
    invoked k C = false := by
  simp only [invoked, List.any_eq_false, beq_iff_eq]
  exact h

theorem before_node (p : Nat) (clock : Nat → Nat) (pre : List py_callback) :
    (pre.foldl (loop_body p) (loop_init clock)).visited.length = pre.length ∧
    invoked pre.length (pre.foldl (loop_body p) (loop_init clock)).calls = false ∧
    (∀ j, (pre.foldl (loop_body p) (loop_init clock)).broke = some j → j < pre.length) ∧
    (∀ t, (∀ m, clock m = t) →
      ∀ m, (pre.foldl (loop_body p) (loop_init clock)).clock m = t) := by
  obtain ⟨⟨X, hX, hXn⟩, ⟨C, hC, hCn⟩, _, hbr, hcl⟩ := foldl_extends p pre (loop_init clock)
  refine ⟨?_, ?_, ?_, ?_⟩
  · rw [hX]
    simp [loop_init, hXn]
  · rw [hC]
    apply invoked_eq_false
    intro c hc
    simp only [loop_init, List.nil_append] at hc
    have := hCn c hc
    simp only [loop_init, List.length_nil] at this
    omega
  · intro j hj
    rcases hbr j hj with h | h
    · simp [loop_init] at h
    · simp only [loop_init, List.length_nil] at h
      omega
  · intro t ht
    exact hcl t ht

theorem after_node (p k : Nat) (s2 : LoopState) (post : List py_callback)
    (hlen : s2.visited.length = k + 1) :
    (post.foldl (loop_body p) s2).visited[k]? = s2.visited[k]? ∧
    invoked k (post.foldl (loop_body p) s2).calls = invoked k s2.calls ∧
    (∀ j, s2.broke = some j → (post.foldl (loop_body p) s2).broke = some j) ∧
    (∀ j, (post.foldl (loop_body p) s2).broke = some j → s2.broke = some j ∨ k < j) := by
  obtain ⟨⟨X, hX, _⟩, ⟨C, hC, hCn⟩, hb, hbr, _⟩ := foldl_extends p post s2
  refine ⟨?_, ?_, hb, ?_⟩
  · rw [hX, List.getElem?_append_left (by omega)]
  · rw [hC, invoked_append, invoked_eq_false k C, Bool.or_false]
    intro c hc
    have := hCn c hc
    omega
  · intro j hj
    rcases hbr j hj with h | h
    · exact Or.inl h
    · exact Or.inr (by omega)

/-- What a dispatch does to a node of the signalled pin: the loop left at an
earlier node and the node is untouched; or the loop left at this node, which
was suppressed and is untouched; or the loop passed the node, stamped it with
the clock reading `tn` and invoked its handler exactly when the test of line
237 held. -/
theorem entry_outcome (p : Nat) (clock : Nat → Nat) (L : List py_callback) (k : Nat)
    (e : py_callback) (hk : L[k]? = some e) (hp : e.gpio = p) :
    ∃ tn, tn < 2 ^ 64 ∧ (∀ t, (∀ m, clock m = t) → tn = t % 2 ^ 64) ∧
      ((∃ j, j < k ∧ (run_py_callbacks p clock L).broke = some j ∧
          (run_py_callbacks p clock L).visited[k]? = some e ∧
          invoked k (run_py_callbacks p clock L).calls = false) ∨
       ((run_py_callbacks p clock L).broke = some k ∧
          (run_py_callbacks p clock L).visited[k]? = some e ∧
          invoked k (run_py_callbacks p clock L).calls = false ∧
          fire_condition e tn = false) ∨
       ((∀ j, (run_py_callbacks p clock L).broke = some j → k < j) ∧
          (run_py_callbacks p clock L).visited[k]? = some { e with lastcall := tn } ∧
          invoked k (run_py_callbacks p clock L).calls = fire_condition e tn)) := by
  obtain ⟨pre, post, hL, hlen⟩ := getElem?_split L k e hk
  subst hL
  obtain ⟨h1len, h1inv, h1br, h1cl⟩ := before_node p clock pre
  rw [hlen] at h1len h1inv h1br
  simp only [run_py_callbacks, List.foldl_append, List.foldl_cons]
  generalize pre.foldl (loop_body p) (loop_init clock) = s1 at h1len h1inv h1br h1cl
  refine ⟨s1.clock 0 % 2 ^ 64, Nat.mod_lt _ (by norm_num), ?_, ?_⟩
  · intro t ht
    rw [h1cl t ht 0]
  have hlast : ∀ x : py_callback, (s1.visited ++ [x])[k]? = some x := by
    intro x
    rw [← h1len]
    exact List.getElem?_concat_length _ _
  cases hb : s1.broke with
  | some j =>
    have h2 := loop_body_broke p s1 e j hb
    obtain ⟨a1, a2, a3, _⟩ := after_node p k (loop_body p s1 e) post (by simp [h2, h1len])
    left
    refine ⟨j, h1br j hb, a3 j (by simp [h2, hb]), ?_, ?_⟩
    · rw [a1, h2]
      exact hlast e
    · rw [a2, h2]
      exact h1inv
  | none =>
    cases hf : fire_condition e (s1.clock 0 % 2 ^ 64) with
    | true =>
      have h2 := loop_body_fire p s1 e hb hp hf
      obtain ⟨a1, a2, _, a4⟩ := after_node p k (loop_body p s1 e) post (by simp [h2, h1len])
      right; right
      refine ⟨?_, ?_, ?_⟩
      · intro j hj
        rcases a4 j hj with h | h
        · simp [h2] at h
        · exact h
      · rw [a1, h2]
        exact hlast _
      · rw [a2, h2, invoked_append, h1inv]
        simp [invoked, h1len]
    | false =>
      by_cases hc : first_byte e = s1.cookie1
      · have h2 := loop_body_skip_pass p s1 e hb hp hf hc
        obtain ⟨a1, a2, _, a4⟩ :=
          after_node p k (loop_body p s1 e) post (by simp [h2, h1len])
        right; right
        refine ⟨?_, ?_, ?_⟩
        · intro j hj
          rcases a4 j hj with h | h
          · simp [h2] at h
          · exact h
        · rw [a1, h2]
          exact hlast _
        · rw [a2, h2]
          exact h1inv
      · have h2 := loop_body_skip_break p s1 e hb hp hf hc
        obtain ⟨a1, a2, a3, _⟩ :=
          after_node p k (loop_body p s1 e) post (by simp [h2, h1len])
        right; left
        refine ⟨a3 k (by simp [h2, h1len]), ?_, ?_, rfl⟩
        · rw [a1, h2]
          exact hlast e
        · rw [a2, h2]
          exact h1inv

/-- A node of another pin is untouched, its handler is not invoked, and the
loop does not leave at it. -/
theorem other_entry_outcome (p : Nat) (clock : Nat → Nat) (L : List py_callback) (k : Nat)
    (e : py_callback) (hk : L[k]? = some e) (hp : e.gpio ≠ p) :
    (run_py_callbacks p clock L).visited[k]? = some e ∧
    invoked k (run_py_callbacks p clock L).calls = false ∧
    (run_py_callbacks p clock L).broke ≠ some k := by
  obtain ⟨pre, post, hL, hlen⟩ := getElem?_split L k e hk
  subst hL
  obtain ⟨h1len, h1inv, h1br, _⟩ := before_node p clock pre
  rw [hlen] at h1len h1inv h1br
  simp only [run_py_callbacks, List.foldl_append, List.foldl_cons]
  generalize pre.foldl (loop_body p) (loop_init clock) = s1 at h1len h1inv h1br
  have h2 := loop_body_other p s1 e hp
  obtain ⟨a1, a2, _, a4⟩ := after_node p k (loop_body p s1 e) post (by simp [h2, h1len])
  refine ⟨?_, ?_, ?_⟩
  · rw [a1, h2, ← h1len]
    exact List.getElem?_concat_length _ _
  · rw [a2, h2]
    exact h1inv
  · intro hj
    rcases a4 k hj with h | h
    · rw [h2] at h
      have := h1br k h
      omega
    · omega

/-! ### Dispatch at concrete registries -/

/-- C1 at the failing input.  Two handlers are registered on P8_7 (pin 7), the
first with bouncetime 200, the second with bouncetime 0.  The edge at 1000
invokes both.  At the edge at 1500 the first is suppressed; the cookie check
then compares the first byte of the node with the stale `cookie[1] = 0` and
leaves the loop, so the handler with bouncetime 0 is not invoked. -/
theorem zero_bouncetime_node_skipped_after_break :
    add_py_callback true [80, 56, 95, 55, 0] 7 200 1 [] = some [node7 1 0 200] ∧
    add_py_callback true [80, 56, 95, 55, 0] 7 0 2 [node7 1 0 200] =
      some [node7 1 0 200, node7 2 0 0] ∧
    (on_edge 7 1000 [node7 1 0 200, node7 2 0 0]).visited =
      [node7 1 1000 200, node7 2 1000 0] ∧
    (on_edge 7 1500 [node7 1 1000 200, node7 2 1000 0]).calls = [] ∧
    (on_edge 7 1500 [node7 1 1000 200, node7 2 1000 0]).broke = some 0 := by
  decide

/-- C4 at the failing input.  A first dispatch reads the clock as 1000 for
the first node and 5000 for the second.  At a later edge read as 1500 the
first node is suppressed and the loop is left there, so the second node, whose
`lastcall = 5000` lies after the reading, is not invoked. -/
theorem regressed_node_skipped_after_break :
    (run_py_callbacks 7 (fun n => if n = 0 then 1000 else 5000)
        [node7 1 0 200, node7 2 0 200]).visited =
      [node7 1 1000 200, node7 2 5000 200] ∧
    (on_edge 7 1500 [node7 1 1000 200, node7 2 5000 200]).calls = [] ∧
    (on_edge 7 1500 [node7 1 1000 200, node7 2 5000 200]).broke = some 0 := by
  decide

/-- C2 fails as stated: with bouncetime 200 and edges at 0 and 100000, the
handler is invoked at both edges, since `lastcall = 0` after the first edge
still reads as never invoked. -/
theorem second_edge_after_time_zero_fires :
    edge_log 7 [0, 100000] [node7 1 0 200] =
      [(0, [⟨0, 1, [80, 56, 95, 55]⟩]), (100000, [⟨0, 1, [80, 56, 95, 55]⟩])] := by
  decide

/-- The product `bouncetime*1000` is taken in `unsigned int`: with bouncetime
4294968 it is 704, and an edge 1000 microseconds after an invocation invokes
the handler again. -/
theorem bouncetime_product_wraps :
    (4294968 * 1000) % 2 ^ 32 = 704 ∧
    edge_log 7 [1000000, 1001000] [node7 1 0 4294968] =
      [(1000000, [⟨0, 1, [80, 56, 95, 55]⟩]), (1001000, [⟨0, 1, [80, 56, 95, 55]⟩])] := by
  decide

/-- C3 fails as stated: two handlers on pin 7, the second with bouncetime
200.  Both are invoked at 1000000.  The edge at 1100000 is suppressed for the
second handler and sets its `lastcall` to 1100000; the edge at 1250000, more
than 200 ms after the last invocation, is suppressed for it as well. -/
theorem suppressed_edge_restarts_window :
    edge_log 7 [1000000, 1100000, 1250000] [node7 1 0 0, node7 2 0 200] =
      [(1000000, [⟨0, 1, [80, 56, 95, 55]⟩, ⟨1, 2, [80, 56, 95, 55]⟩]),
       (1100000, [⟨0, 1, [80, 56, 95, 55]⟩]),
       (1250000, [⟨0, 1, [80, 56, 95, 55]⟩])] ∧
    registry_after 7 [1000000] [node7 1 0 0, node7 2 0 200] =
      [node7 1 1000000 0, node7 2 1000000 200] ∧
    registry_after 7 [1000000, 1100000] [node7 1 0 0, node7 2 0 200] =
      [node7 1 1100000 0, node7 2 1100000 200] ∧
    200 * 1000 < 1250000 - 1000000 := by
  decide

/-! ### The window is counted from the last edge passed -/

theorem entry_passed (p now : Nat) (L : List py_callback) (k : Nat)
    (e : py_callback) (hk : L[k]? = some e) (hp : e.gpio = p) (hnow : now < 2 ^ 64)
    (hpass : ∀ j, (on_edge p now L).broke = some j → k < j) :
    (on_edge p now L).visited[k]? = some { e with lastcall := now } ∧
    invoked k (on_edge p now L).calls = fire_condition e now := by
  obtain ⟨tn, _, htn, h⟩ := entry_outcome p (fun _ => now) L k e hk hp
  have hnow' : tn = now := by
    rw [htn now (fun _ => rfl), Nat.mod_eq_of_lt hnow]
  subst hnow'
  rcases h with ⟨j, hj, hb, _⟩ | ⟨hb, _⟩ | ⟨_, hv, hi⟩
  · have := hpass j hb
    omega
  · have := hpass k hb
    omega
  · exact ⟨hv, hi⟩

/-- C3, as the code has it: when the dispatch at time `now` does not leave
its loop at or before a node of the signalled pin, the node is stamped
`lastcall = now`, its other fields unchanged, whether its handler was invoked
or suppressed; and the handler was invoked exactly when the test of line 237
held for the `lastcall` the node had before. -/
theorem lastcall_stamped_when_passed (p now : Nat) (L : List py_callback) (k : Nat)
    (e : py_callback) (hk : L[k]? = some e) (hp : e.gpio = p) (hnow : now < 2 ^ 64)
    (hpass : ∀ j, (on_edge p now L).broke = some j → k < j) :
    (on_edge p now L).visited[k]? = some { e with lastcall := now } ∧
    invoked k (on_edge p now L).calls = fire_condition e now := by
  obtain ⟨tn, _, htn, h⟩ := entry_outcome p (fun _ => now) L k e hk hp
  have hread : tn = now := by
    rw [htn now (fun _ => rfl), Nat.mod_eq_of_lt hnow]
  rw [hread] at h
  rcases h with ⟨j, hj, hb, _⟩ | ⟨hb, _⟩ | ⟨_, hv, hi⟩
  · exact absurd (hpass j hb) (by omega)
  · exact absurd (hpass k hb) (by omega)
  · exact ⟨hv, hi⟩

theorem lastcall_stamped_when_passed_witness :
    (on_edge 7 1100000 [node7 1 1000000 0, node7 2 1000000 200]).visited[1]? =
        some (node7 2 1100000 200) ∧
    invoked 1 (on_edge 7 1100000 [node7 1 1000000 0, node7 2 1000000 200]).calls = false :=
  lastcall_stamped_when_passed 7 1100000 [node7 1 1000000 0, node7 2 1000000 200] 1
    (node7 2 1000000 200) (by decide) (by decide) (by decide)
    (by
      intro j hj
      have hnone : (on_edge 7 1100000 [node7 1 1000000 0, node7 2 1000000 200]).broke = none := by
        decide
      rw [hnone] at hj
      cases hj)

/-! ### Sequences of edges -/

theorem broke_is_suppressed (p : Nat) (clock : Nat → Nat) (L : List py_callback) (j : Nat)
    (hj : (run_py_callbacks p clock L).broke = some j) :
    ∃ c tn, L[j]? = some c ∧ c.gpio = p ∧ fire_condition c tn = false := by
  have hlt : j < L.length := by
    obtain ⟨_, _, _, hbr, _⟩ := foldl_extends p L (loop_init clock)
    rcases hbr j hj with h | h
    · simp [loop_init] at h
    · simp only [loop_init, List.length_nil] at h
      omega
  have hget : L[j]? = some L[j] := List.getElem?_eq_getElem hlt
  by_cases hg : L[j].gpio = p
  · obtain ⟨tn, _, _, h⟩ := entry_outcome p clock L j L[j] hget hg
    rcases h with ⟨i, hi, hb, _⟩ | ⟨_, _, _, hf⟩ | ⟨hb, _⟩
    · rw [hj] at hb
      simp only [Option.some.injEq] at hb
      omega
    · exact ⟨L[j], tn, hget, hg, hf⟩
    · have := hb j hj
      omega
  · exact absurd hj (other_entry_outcome p clock L j L[j] hget hg).2.2

theorem first_edge_fires (p k : Nat) (e : py_callback) (L : List py_callback) (t : Nat)
    (hk : L[k]? = some e) (hp : e.gpio = p)
    (hfresh : ∀ j c, j ≤ k → L[j]? = some c → c.gpio = p → c.lastcall = 0)
    (ht : t < 2 ^ 64) :
    (on_edge p t L).visited[k]? = some { e with lastcall := t } ∧
    invoked k (on_edge p t L).calls = true := by
  have hpass : ∀ j, (on_edge p t L).broke = some j → k < j := by
    intro j hj
    by_contra hle
    obtain ⟨c, tn, hc, hg, hf⟩ := broke_is_suppressed p (fun _ => t) L j hj
    rw [fire_condition_of_never_called c tn (hfresh j c (by omega) hc hg)] at hf
    cases hf
  obtain ⟨h1, h2⟩ := entry_passed p t L k e hk hp ht hpass
  exact ⟨h1, by rw [h2, fire_condition_of_never_called e t (hfresh k e (Nat.le_refl k) hk hp)]⟩

theorem registry_after_concat (p t : Nat) (pre : List Nat) (L : List py_callback) :
    registry_after p (pre ++ [t]) L = (on_edge p t (registry_after p pre L)).visited := by
  simp [registry_after, List.foldl_append]

theorem edge_log_concat (p t : Nat) (pre : List Nat) (L : List py_callback) :
    edge_log p (pre ++ [t]) L =
      edge_log p pre L ++ [(t, (on_edge p t (registry_after p pre L)).calls)] := by
  induction pre generalizing L with
  | nil => simp [edge_log, registry_after]
  | cons a rest ih =>
    show (a, (on_edge p a L).calls) :: edge_log p (rest ++ [t]) (on_edge p a L).visited = _
    rw [ih]
    rfl

theorem edge_log_split (p : Nat) (ts : List Nat) (L : List py_callback)
    (A : List (Nat × List Call)) (t : Nat) (calls : List Call) (B : List (Nat × List Call))
    (h : edge_log p ts L = A ++ (t, calls) :: B) :
    ∃ pre post, ts = pre ++ t :: post ∧ A = edge_log p pre L ∧
      calls = (on_edge p t (registry_after p pre L)).calls := by
  induction ts generalizing L A with
  | nil =>
    simp [edge_log] at h
  | cons t1 rest ih =>
    cases A with
    | nil =>
      simp only [edge_log, List.nil_append, List.cons.injEq, Prod.mk.injEq] at h
      obtain ⟨⟨h1, h2⟩, _⟩ := h
      exact ⟨[], rest, by simp [h1], rfl, by simp [registry_after, ← h2, h1]⟩
    | cons a A1 =>
      simp only [edge_log, List.cons_append, List.cons.injEq] at h
      obtain ⟨h1, h2⟩ := h
      obtain ⟨pre, post, e1, e2, e3⟩ := ih _ A1 h2
      refine ⟨t1 :: pre, post, by simp [e1], ?_, ?_⟩
      · simp only [edge_log, ← h1, e2]
      · simpa [registry_after] using e3

theorem last_invocation_concat (k t : Nat) (calls : List Call)
    (log : List (Nat × List Call)) :
    last_invocation k (log ++ [(t, calls)]) =
      if invoked k calls = true then some t else last_invocation k log := by
  cases h : invoked k calls with
  | true => simp [last_invocation, List.filter_append, List.filter_cons, h]
  | false => simp [last_invocation, List.filter_append, List.filter_cons, h]

theorem window_invariant (p k : Nat) (e : py_callback) (L : List py_callback) (t0 : Nat)
    (hk : L[k]? = some e) (hp : e.gpio = p)
    (hfresh : ∀ j c, j ≤ k → L[j]? = some c → c.gpio = p → c.lastcall = 0)
    (pre : List Nat) (hinc : (t0 :: pre).Pairwise (fun a b => a < b))
    (h64 : ∀ t ∈ t0 :: pre, t < 2 ^ 64) :
    ∃ tf e1, last_invocation k (edge_log p (t0 :: pre) L) = some tf ∧
      (registry_after p (t0 :: pre) L)[k]? = some e1 ∧ same_but_lastcall e e1 ∧
      tf ≤ e1.lastcall ∧ e1.lastcall ∈ t0 :: pre := by
  induction pre using List.reverseRecOn with
  | nil =>
    obtain ⟨h1, h2⟩ := first_edge_fires p k e L t0 hk hp hfresh (h64 t0 (List.mem_cons_self _ _))
    refine ⟨t0, { e with lastcall := t0 }, ?_, ?_, ⟨rfl, rfl, rfl, rfl⟩, Nat.le_refl _, ?_⟩
    · simp [edge_log, last_invocation, List.filter_cons, h2]
    · simpa [registry_after] using h1
    · simp
  | append_singleton q t1 ih =>
    rw [← List.cons_append] at hinc h64 ⊢
    obtain ⟨hq, _, hlt⟩ := List.pairwise_append.1 hinc
    obtain ⟨tf, e1, hlast, hreg, hsame, hle, hmem⟩ :=
      ih hq (fun t ht => h64 t (List.mem_append_left _ ht))
    have ht1 : t1 < 2 ^ 64 := h64 t1 (by simp)
    have hg1 : e1.gpio = p := by rw [← hsame.2.1]; exact hp
    rw [edge_log_concat, registry_after_concat, last_invocation_concat]
    obtain ⟨tn, _, htn, h⟩ :=
      entry_outcome p (fun _ => t1) (registry_after p (t0 :: q) L) k e1 hreg hg1
    have htn1 : tn = t1 := by rw [htn t1 (fun _ => rfl), Nat.mod_eq_of_lt ht1]
    subst htn1
    rcases h with ⟨j, _, _, hv, hi⟩ | ⟨_, hv, hi, _⟩ | ⟨_, hv, hi⟩
    · exact ⟨tf, e1, by simp [on_edge, hi, hlast], hv, hsame, hle, List.mem_append_left _ hmem⟩
    · exact ⟨tf, e1, by simp [on_edge, hi, hlast], hv, hsame, hle, List.mem_append_left _ hmem⟩
    · have hlt1 : e1.lastcall < tn := hlt _ hmem tn (by simp)
      cases hf : fire_condition e1 tn with
      | true =>
        refine ⟨tn, { e1 with lastcall := tn }, by simp [on_edge, hi, hf], hv,
          ⟨hsame.1, hsame.2.1, hsame.2.2.1, hsame.2.2.2⟩, Nat.le_refl _, by simp⟩
      | false =>
        refine ⟨tf, { e1 with lastcall := tn }, by simp [on_edge, hi, hf, hlast], hv,
          ⟨hsame.1, hsame.2.1, hsame.2.2.1, hsame.2.2.2⟩, ?_, by simp⟩
        show tf ≤ tn
        omega

/-- C2, as the code has it: take a node of pin `p` with bouncetime `B`,
`0 < B ≤ 4294967` (so that `B * 1000` fits the 32-bit product), never invoked,
as are the nodes of `p` before it, and edges at strictly increasing times
`0 < t0 < t1 < ...` below `2^64`.  The handler is invoked at `t0`, and it is
invoked at a later edge `t` only if `t - tf > B * 1000`, where `tf` is the
time of the most recent edge at which it was invoked. -/
theorem debounce_window_after_first_edge (p k : Nat) (e : py_callback)
    (L : List py_callback) (t0 : Nat) (ts : List Nat)
    (hk : L[k]? = some e) (hp : e.gpio = p)
    (hB : 0 < e.bouncetime) (hB32 : e.bouncetime ≤ 4294967)
    (hfresh : ∀ j c, j ≤ k → L[j]? = some c → c.gpio = p → c.lastcall = 0)
    (ht0 : 0 < t0) (hinc : (t0 :: ts).Pairwise (fun a b => a < b))
    (h64 : ∀ t ∈ t0 :: ts, t < 2 ^ 64) :
    (∃ calls rest, edge_log p (t0 :: ts) L = (t0, calls) :: rest ∧ invoked k calls = true) ∧
    ∀ before t calls after, edge_log p (t0 :: ts) L = before ++ (t, calls) :: after →
      before ≠ [] → invoked k calls = true →
      ∃ tf, last_invocation k before = some tf ∧ e.bouncetime * 1000 < t - tf := by
  constructor
  · exact ⟨_, _, rfl,
      (first_edge_fires p k e L t0 hk hp hfresh (h64 t0 (List.mem_cons_self _ _))).2⟩
  · intro before t calls after hlog hne hinv
    obtain ⟨pre, post, hts, hA, hcalls⟩ := edge_log_split p (t0 :: ts) L before t calls after hlog
    cases pre with
    | nil =>
      rw [hA] at hne
      exact absurd rfl hne
    | cons a pre1 =>
      simp only [List.cons_append, List.cons.injEq] at hts
      obtain ⟨ha, hts1⟩ := hts
      subst ha
      subst hts1
      rw [← List.cons_append] at hinc h64
      obtain ⟨hq, _, hlt⟩ := List.pairwise_append.1 hinc
      obtain ⟨tf, e1, hlast, hreg, hsame, hle, hmem⟩ :=
        window_invariant p k e L t0 hk hp hfresh pre1 hq
          (fun x hx => h64 x (List.mem_append_left _ hx))
      have ht : t < 2 ^ 64 := h64 t (by simp)
      have hg1 : e1.gpio = p := by rw [← hsame.2.1]; exact hp
      have hlt1 : e1.lastcall < t := hlt _ hmem t (by simp)
      have hpos : 0 < e1.lastcall := by
        rcases List.mem_cons.1 hmem with h | h
        · omega
        · have := (List.pairwise_cons.1 hq).1 _ h
          omega
      obtain ⟨tn, _, htn, h⟩ :=
        entry_outcome p (fun _ => t) (registry_after p (t0 :: pre1) L) k e1 hreg hg1
      have htn1 : tn = t := by rw [htn t (fun _ => rfl), Nat.mod_eq_of_lt ht]
      subst htn1
      rw [hcalls] at hinv
      refine ⟨tf, by rw [hA]; exact hlast, ?_⟩
      have hfire : fire_condition e1 tn = true := by
        rcases h with ⟨j, _, _, _, hi⟩ | ⟨_, _, hi, _⟩ | ⟨_, _, hi⟩
        · rw [on_edge, hi] at hinv
          cases hinv
        · rw [on_edge, hi] at hinv
          cases hinv
        · rw [← hi]
          exact hinv
      have hb : e1.bouncetime = e.bouncetime := hsame.2.2.2.symm
      simp only [fire_condition, Bool.or_eq_true, beq_iff_eq, decide_eq_true_eq] at hfire
      rw [hb] at hfire
      omega

theorem debounce_window_after_first_edge_witness :
    ∃ tf, last_invocation 0
        [(1000000, [⟨0, 1, [80, 56, 95, 55]⟩]), (1100000, [])] = some tf ∧
      200 * 1000 < 1250000 - tf :=
  (debounce_window_after_first_edge 7 0 (node7 1 0 200) [node7 1 0 200] 1000000
    [1100000, 1250000] (by decide) (by decide) (by decide) (by decide)
    (by
      intro j c hj hc _
      have h0 : j = 0 := by omega
      subst h0
      simp only [List.getElem?_cons_zero, Option.some.injEq] at hc
      rw [← hc]
      rfl)
    (by decide) (by decide) (by decide)).2
    [(1000000, [⟨0, 1, [80, 56, 95, 55]⟩]), (1100000, [])] 1250000
    [⟨0, 1, [80, 56, 95, 55]⟩] [] (by decide) (by decide) (by decide)

/-! ### Registration -/

theorem append_node_eq (n : py_callback) (L : List py_callback) :
    append_node n L = L ++ [n] := by
  induction L with
  | nil => rfl
  | cons cb rest ih => simp [append_node, ih]

theorem cstr_new_channel (channel : List Nat) :
    cstr (new_channel channel) = (cstr channel).take 31 := by
  unfold new_channel
  have hpos : ∀ a ∈ (cstr channel).take 31, (fun b : Nat => b != 0) a = true := by
    intro a ha
    have h1 : a ∈ List.takeWhile (fun b : Nat => b != 0) channel := List.mem_of_mem_take ha
    exact List.mem_takeWhile_imp (p := fun b : Nat => b != 0) h1
  have hlen : ((cstr channel).take 31).length ≤ 31 := by
    simp [List.length_take]
  obtain ⟨m, hm⟩ : ∃ m, 32 - ((cstr channel).take 31).length = m + 1 :=
    ⟨31 - ((cstr channel).take 31).length, by omega⟩
  rw [hm]
  generalize (cstr channel).take 31 = A at hpos
  unfold cstr
  rw [List.takeWhile_append_of_pos hpos]
  simp [List.replicate_succ]

/-- C6: a successful `add_py_callback` turns the registry `L` into `L`
followed by one new node; the new node carries the given pin, callable and
bouncetime, `lastcall = 0`, and a 32-byte channel buffer whose string is the
first `min (length of the label) 31` bytes of the label, followed by NUL
bytes only.  Without memory the call fails. -/
theorem add_py_callback_appends (channel : List Nat) (gpio bouncetime cb_func : Nat)
    (L : List py_callback) :
    add_py_callback true channel gpio bouncetime cb_func L =
      some (L ++ [{ channel := new_channel channel, gpio := gpio, py_cb := cb_func,
                    lastcall := 0, bouncetime := bouncetime }]) ∧
    (new_channel channel).length = 32 ∧
    cstr (new_channel channel) = (cstr channel).take (min (cstr channel).length 31) ∧
    (new_channel channel).drop (min (cstr channel).length 31) =
      List.replicate (32 - min (cstr channel).length 31) 0 ∧
    add_py_callback false channel gpio bouncetime cb_func L = none := by
  have hmin : (cstr channel).take (min (cstr channel).length 31) = (cstr channel).take 31 := by
    rcases Nat.le_total (cstr channel).length 31 with h | h
    · rw [Nat.min_eq_left h, List.take_of_length_le (Nat.le_refl _), List.take_of_length_le h]
    · rw [Nat.min_eq_right h]
  have hlen : ((cstr channel).take 31).length = min (cstr channel).length 31 := by
    rw [List.length_take, Nat.min_comm]
  refine ⟨by simp [add_py_callback, append_node_eq], ?_, ?_, ?_, by simp [add_py_callback]⟩
  · unfold new_channel
    rw [List.length_append, List.length_replicate, hlen]
    omega
  · rw [cstr_new_channel, hmin]
  · unfold new_channel
    rw [hlen, ← hlen, List.drop_left]

/-! ### Order of the calls -/

theorem loop_body_calls (p : Nat) (s : LoopState) (cb : py_callback) :
    (loop_body p s cb).visited.length = s.visited.length + 1 ∧
    ((loop_body p s cb).calls = s.calls ∨
      (cb.gpio = p ∧
        (loop_body p s cb).calls =
          s.calls ++ [⟨s.visited.length, cb.py_cb, cstr cb.channel⟩])) := by
  cases hb : s.broke with
  | some j =>
    rw [loop_body_broke p s cb j hb]
    exact ⟨by simp, Or.inl rfl⟩
  | none =>
    by_cases hg : cb.gpio = p
    · cases hf : fire_condition cb (s.clock 0 % 2 ^ 64) with
      | true =>
        rw [loop_body_fire p s cb hb hg hf]
        exact ⟨by simp, Or.inr ⟨hg, rfl⟩⟩
      | false =>
        by_cases hc : first_byte cb = s.cookie1
        · rw [loop_body_skip_pass p s cb hb hg hf hc]
          exact ⟨by simp, Or.inl rfl⟩
        · rw [loop_body_skip_break p s cb hb hg hf hc]
          exact ⟨by simp, Or.inl rfl⟩
    · rw [loop_body_other p s cb hg]
      exact ⟨by simp, Or.inl rfl⟩

theorem foldl_calls_sublist (p : Nat) (L : List py_callback) (s : LoopState) :
    ∃ C, (L.foldl (loop_body p) s).calls = s.calls ++ C ∧
      List.Sublist C
        (((L.enumFrom s.visited.length).filter (fun x => decide (x.2.gpio = p))).map
          (fun x => (⟨x.1, x.2.py_cb, cstr x.2.channel⟩ : Call))) := by
  induction L generalizing s with
  | nil => exact ⟨[], by simp, by simp⟩
  | cons cb rest ih =>
    obtain ⟨C, hC, hsub⟩ := ih (loop_body p s cb)
    obtain ⟨hlen, hcalls⟩ := loop_body_calls p s cb
    rw [hlen] at hsub
    simp only [List.foldl_cons, List.enumFrom_cons]
    rcases hcalls with h | ⟨hg, h⟩
    · refine ⟨C, by rw [hC, h], ?_⟩
      by_cases hg : cb.gpio = p
      · simp only [List.filter_cons, hg, decide_True, if_true, List.map_cons]
        exact List.Sublist.cons _ hsub
      · simp only [List.filter_cons, hg, decide_False, Bool.false_eq_true, if_false]
        exact hsub
    · refine ⟨⟨s.visited.length, cb.py_cb, cstr cb.channel⟩ :: C, by rw [hC, h]; simp, ?_⟩
      simp only [List.filter_cons, hg, decide_True, if_true, List.map_cons]
      exact List.Sublist.cons₂ _ hsub

theorem foldl_other_pins (p : Nat) (L : List py_callback) (s : LoopState)
    (h : ∀ cb ∈ L, cb.gpio ≠ p) :
    L.foldl (loop_body p) s = { s with visited := s.visited ++ L } := by
  induction L generalizing s with
  | nil => simp
  | cons cb rest ih =>
    rw [List.foldl_cons, loop_body_other p s cb (h cb (List.mem_cons_self _ _)),
      ih _ (fun c hc => h c (List.mem_cons_of_mem _ hc))]
    simp

/-- C5: the calls of one dispatch, each with the position of its node, are a
subsequence of the nodes of the signalled pin in list order; and when `H1` and
then `H2` are registered on pin `p` in a registry without a node of `p`, the
first dispatch for `p` calls exactly `H1` and then `H2`, whatever bouncetimes,
channel names and clock readings. -/
theorem dispatch_in_registration_order (p : Nat) (clock : Nat → Nat) (L : List py_callback) :
    List.Sublist (run_py_callbacks p clock L).calls
      ((L.enum.filter (fun x => decide (x.2.gpio = p))).map
        (fun x => (⟨x.1, x.2.py_cb, cstr x.2.channel⟩ : Call))) ∧
    ((∀ cb ∈ L, cb.gpio ≠ p) →
      ∀ (m1 m2 : Bool) (ch1 ch2 : List Nat) (b1 b2 H1 H2 : Nat) (L1 L2 : List py_callback),
        add_py_callback m1 ch1 p b1 H1 L = some L1 →
        add_py_callback m2 ch2 p b2 H2 L1 = some L2 →
        (run_py_callbacks p clock L2).calls =
          [⟨L.length, H1, cstr (new_channel ch1)⟩,
           ⟨L.length + 1, H2, cstr (new_channel ch2)⟩]) := by
  constructor
  · obtain ⟨C, hC, hsub⟩ := foldl_calls_sublist p L (loop_init clock)
    simp only [run_py_callbacks, hC]
    simpa [loop_init, List.enum] using hsub
  · intro hL m1 m2 ch1 ch2 b1 b2 H1 H2 L1 L2 h1 h2
    cases m1 with
    | false => simp [add_py_callback] at h1
    | true =>
      cases m2 with
      | false => simp [add_py_callback] at h2
      | true =>
        simp only [add_py_callback, if_true, append_node_eq, Option.some.injEq] at h1 h2
        subst h1
        subst h2
        simp only [run_py_callbacks, List.foldl_append, List.foldl_cons, List.foldl_nil]
        rw [foldl_other_pins p L _ hL]
        rw [loop_body_fire p { loop_init clock with visited := (loop_init clock).visited ++ L }
          _ rfl rfl (fire_condition_of_never_called _ _ rfl)]
        rw [loop_body_fire p _ _ rfl rfl (fire_condition_of_never_called _ _ rfl)]
        simp [loop_init]

theorem dispatch_in_registration_order_witness :
    (run_py_callbacks 7 (fun n => 1000 + n)
        [{ node7 9 0 0 with gpio := 8 }, node7 1 0 200, node7 2 0 50]).calls =
      [⟨1, 1, [80, 56, 95, 55]⟩, ⟨2, 2, [80, 56, 95, 55]⟩] :=
  ((dispatch_in_registration_order 7 (fun n => 1000 + n) [{ node7 9 0 0 with gpio := 8 }]).2
      (by decide) true true [80, 56, 95, 55, 0] [80, 56, 95, 55, 0] 200 50 1 2
      [{ node7 9 0 0 with gpio := 8 }, node7 1 0 200]
      [{ node7 9 0 0 with gpio := 8 }, node7 1 0 200, node7 2 0 50]
      (by decide) (by decide)).trans (by decide)

/-! ### Removal -/

theorem remove_loop_eq_filter (p : Nat) (L : List py_callback) :
    remove_loop p L = L.filter (fun cb => decide (cb.gpio ≠ p)) := by
  induction L with
  | nil => rfl
  | cons cb rest ih =>
    by_cases h : cb.gpio = p
    · simp [remove_loop, h, ih]
    · simp [remove_loop, h, ih]

/-- C7: when the channel resolves to pin `p`, `py_remove_event_detect`
succeeds and leaves the registry with exactly the nodes of `p` removed: the
others are kept, unchanged and in their order; no node of `p` remains; a
registry without a node of `p` is unchanged; a second call changes nothing
more. -/
theorem py_remove_event_detect_removes_pin {Ev : Type} (X : Externals Ev)
    (channel : List Nat) (p : Nat) (st : State Ev)
    (hres : X.get_gpio_number channel = some p) :
    (py_remove_event_detect X channel st).1 = PyRet.Py_None ∧
    (py_remove_event_detect X channel st).2.py_callbacks =
      st.py_callbacks.filter (fun cb => decide (cb.gpio ≠ p)) ∧
    (∀ cb ∈ (py_remove_event_detect X channel st).2.py_callbacks, cb.gpio ≠ p) ∧
    ((∀ cb ∈ st.py_callbacks, cb.gpio ≠ p) →
      (py_remove_event_detect X channel st).2.py_callbacks = st.py_callbacks) ∧
    (py_remove_event_detect X channel (py_remove_event_detect X channel st).2).1 =
      PyRet.Py_None ∧
    (py_remove_event_detect X channel (py_remove_event_detect X channel st).2).2.py_callbacks =
      (py_remove_event_detect X channel st).2.py_callbacks := by
  simp only [py_remove_event_detect, hres, remove_loop_eq_filter, List.filter_filter,
    Bool.and_self, true_and]
  refine ⟨?_, ?_, trivial⟩
  · intro cb hcb
    simpa using (List.mem_filter.1 hcb).2
  · intro h
    rw [List.filter_eq_self]
    intro cb hcb
    simpa using h cb hcb

theorem py_remove_event_detect_removes_pin_witness :
    (py_remove_event_detect sampleX [80, 56, 95, 55, 0]
        (sampleState [node7 1 0 0, { node7 2 0 0 with gpio := 8 }, node7 3 5 200])).2.py_callbacks =
      [{ node7 2 0 0 with gpio := 8 }] :=
  ((py_remove_event_detect_removes_pin sampleX [80, 56, 95, 55, 0] 7
      (sampleState [node7 1 0 0, { node7 2 0 0 with gpio := 8 }, node7 3 5 200])
      (by decide)).2.1).trans (by decide)

/-! ### `py_add_event_callback` -/

/-- C8: `py_add_event_callback` returns `None` exactly when the callback is
callable, the channel resolves, the pin is set up as input, the pin is under
event detection and memory is available; then the registry is the old one
followed by one new node.  In every other case it returns `NULL` and the
state, the registry included, is the one before the call. -/
theorem py_add_event_callback_spec {Ev : Type} (X : Externals Ev) (malloc_ok callable : Bool)
    (channel : List Nat) (cb_func bouncetime : Nat) (st : State Ev) :
    ((py_add_event_callback X malloc_ok callable channel cb_func bouncetime st).1 =
        PyRet.Py_None ↔
      (callable = true ∧ malloc_ok = true ∧
        ∃ gpio, X.get_gpio_number channel = some gpio ∧ st.module_setup = true ∧
          st.gpio_direction gpio = X.INPUT ∧ X.gpio_is_evented st.event gpio = true)) ∧
    ((py_add_event_callback X malloc_ok callable channel cb_func bouncetime st).1 =
        PyRet.Py_None →
      ∃ gpio, X.get_gpio_number channel = some gpio ∧
        (py_add_event_callback X malloc_ok callable channel cb_func bouncetime st).2.py_callbacks =
          st.py_callbacks ++
            [{ channel := new_channel channel, gpio := gpio, py_cb := cb_func,
               lastcall := 0, bouncetime := bouncetime }]) ∧
    ((py_add_event_callback X malloc_ok callable channel cb_func bouncetime st).1 ≠
        PyRet.Py_None →
      (∃ exc, (py_add_event_callback X malloc_ok callable channel cb_func bouncetime st).1 =
          PyRet.NULL exc) ∧
        (py_add_event_callback X malloc_ok callable channel cb_func bouncetime st).2 = st) := by
  unfold py_add_event_callback
  cases callable with
  | false => simp
  | true =>
    cases hg : X.get_gpio_number channel with
    | none => simp
    | some gpio =>
      cases hs : st.module_setup with
      | false => simp
      | true =>
        by_cases hd : st.gpio_direction gpio = X.INPUT
        · cases he : X.gpio_is_evented st.event gpio with
          | false => simp [hd, he]
          | true =>
            cases malloc_ok with
            | false => simp [hd, he, add_py_callback]
            | true => simp [hd, he, add_py_callback, append_node_eq]
        · simp [hd]

/-! ### `py_cleanup` -/

/-- C9, as the code has it: `py_cleanup` returns `None` and leaves the
callback registry as it was, whatever `event_cleanup` does to the event layer;
a second call leaves it the same again, and an empty registry stays empty. -/
theorem py_cleanup_keeps_registry {Ev : Type} (X : Externals Ev) (st : State Ev) :
    (py_cleanup X st).1 = PyRet.Py_None ∧
    (py_cleanup X st).2.py_callbacks = st.py_callbacks ∧
    (py_cleanup X (py_cleanup X st).2).2.py_callbacks = st.py_callbacks ∧
    (py_cleanup X { st with py_callbacks := [] }).2.py_callbacks = [] :=
  ⟨rfl, rfl, rfl, rfl⟩

/-- C9 fails as stated: after `py_cleanup` on a registry holding one node, with
an event layer whose cleanup stops every watch, the node is still there. -/
theorem py_cleanup_registry_not_emptied :
    (py_cleanup sampleX (sampleState [node7 1 0 0])).2.py_callbacks = [node7 1 0 0] ∧
    (py_cleanup sampleX (sampleState [node7 1 0 0])).2.event = [] := by
  decide

/-! ### `py_wait_for_edge` -/

/-- C10, as the code has it: for a channel resolving to `gpio`, when the pin
is set up as input and the edge kind is valid, `py_wait_for_edge` calls
`blocking_wait_for_edge` exactly once and maps its result: 0 to `None` (edge),
-1 to `False` (timed out), 2 to the error that event detection is already
enabled, any other value to the error carrying that value.  When the pin is
not set up as input or the edge kind is not valid it fails without calling
`blocking_wait_for_edge` and leaves the state as it was. -/
theorem py_wait_for_edge_spec {Ev : Type} (X : Externals Ev) (channel : List Nat)
    (edge timeout : Int) (st : State Ev) (gpio : Nat)
    (hres : X.get_gpio_number channel = some gpio) :
    ((st.module_setup = true ∧ st.gpio_direction gpio = X.INPUT ∧
        (edge = X.RISING_EDGE ∨ edge = X.FALLING_EDGE ∨ edge = X.BOTH_EDGE)) →
      (py_wait_for_edge X channel edge timeout st).waits = [(gpio, edge, timeout)] ∧
      ((X.blocking_wait_for_edge st.event gpio edge timeout).1 = 0 →
        (py_wait_for_edge X channel edge timeout st).ret = PyRet.Py_None) ∧
      ((X.blocking_wait_for_edge st.event gpio edge timeout).1 = -1 →
        (py_wait_for_edge X channel edge timeout st).ret = PyRet.Py_False) ∧
      ((X.blocking_wait_for_edge st.event gpio edge timeout).1 = 2 →
        (py_wait_for_edge X channel edge timeout st).ret =
          PyRet.NULL (some PyExc.RuntimeError_already_enabled)) ∧
      ((X.blocking_wait_for_edge st.event gpio edge timeout).1 ≠ 0 →
        (X.blocking_wait_for_edge st.event gpio edge timeout).1 ≠ -1 →
        (X.blocking_wait_for_edge st.event gpio edge timeout).1 ≠ 2 →
        (py_wait_for_edge X channel edge timeout st).ret =
          PyRet.NULL (some (PyExc.RuntimeError_wait
            (X.blocking_wait_for_edge st.event gpio edge timeout).1)))) ∧
    ((st.module_setup = false ∨ st.gpio_direction gpio ≠ X.INPUT) →
      (py_wait_for_edge X channel edge timeout st).ret =
          PyRet.NULL (some PyExc.RuntimeError_not_input) ∧
      (py_wait_for_edge X channel edge timeout st).waits = [] ∧
      (py_wait_for_edge X channel edge timeout st).state = st) ∧
    ((st.module_setup = true ∧ st.gpio_direction gpio = X.INPUT ∧
        edge ≠ X.RISING_EDGE ∧ edge ≠ X.FALLING_EDGE ∧ edge ≠ X.BOTH_EDGE) →
      (py_wait_for_edge X channel edge timeout st).ret =
          PyRet.NULL (some PyExc.ValueError_edge) ∧
      (py_wait_for_edge X channel edge timeout st).waits = [] ∧
      (py_wait_for_edge X channel edge timeout st).state = st) := by
  unfold py_wait_for_edge
  simp only [hres]
  refine ⟨?_, ?_, ?_⟩
  · rintro ⟨hs, hd, he⟩
    have hedge : (edge != X.RISING_EDGE && edge != X.FALLING_EDGE && edge != X.BOTH_EDGE)
        = false := by
      rcases he with h | h | h <;> simp [h]
    simp only [hs, hd, hedge, Bool.not_true, bne_self_eq_false, Bool.or_self,
      Bool.false_eq_true, if_false]
    refine ⟨?_, ?_, ?_, ?_, ?_⟩
    · split_ifs <;> rfl
    · intro h0
      simp [h0]
    · intro h1
      simp [h1]
    · intro h2
      simp [h2]
    · intro h0 h1 h2
      simp [h0, h1, h2]
  · intro h
    have hcond : (!st.module_setup || st.gpio_direction gpio != X.INPUT) = true := by
      rcases h with h | h <;> simp [h]
    simp [hcond]
  · rintro ⟨hs, hd, h1, h2, h3⟩
    simp [hs, hd, h1, h2, h3]

theorem py_wait_for_edge_spec_witness :
    (py_wait_for_edge sampleX [80, 56, 95, 55, 0] 1 100 { sampleState [] with event := [] }).ret =
      PyRet.Py_False :=
  ((py_wait_for_edge_spec sampleX [80, 56, 95, 55, 0] 1 100 { sampleState [] with event := [] } 7
      (by decide)).1 ⟨rfl, by decide, Or.inl (by decide)⟩).2.2.1 (by decide)

/-- C10 fails as stated: on a pin already under callback-based event
detection the error is raised from the result 2 of `blocking_wait_for_edge`,
which has been entered. -/
theorem py_wait_for_edge_enters_primitive_when_watched :
    sampleX.gpio_is_evented (sampleState []).event 7 = true ∧
    (py_wait_for_edge sampleX [80, 56, 95, 55, 0] 1 100 (sampleState [])).ret =
      PyRet.NULL (some PyExc.RuntimeError_already_enabled) ∧
    (py_wait_for_edge sampleX [80, 56, 95, 55, 0] 1 100 (sampleState [])).waits =
      [(7, 1, 100)] := by
  decide

/-! ### The frame of a dispatch -/

theorem calls_are_of_pin (p : Nat) (clock : Nat → Nat) (L : List py_callback) (c : Call)
    (hc : c ∈ (run_py_callbacks p clock L).calls) :
    ∃ e, L[c.node]? = some e ∧ e.gpio = p ∧ c.py_cb = e.py_cb ∧ c.arg = cstr e.channel := by
  obtain ⟨C, hC, hsub⟩ := foldl_calls_sublist p L (loop_init clock)
  rw [run_py_callbacks, hC] at hc
  simp only [loop_init, List.nil_append, List.length_nil] at hc hsub
  obtain ⟨x, hx, hxc⟩ := List.mem_map.1 (hsub.subset hc)
  obtain ⟨hmem, hg⟩ := List.mem_filter.1 hx
  have hget : L[x.1]? = some x.2 := List.mem_enum_iff_getElem?.1 hmem
  subst hxc
  exact ⟨x.2, hget, by simpa using hg, rfl, rfl⟩

/-- C11: one dispatch for pin `p`, under any clock, keeps the number and the
order of the nodes; every node keeps its channel, pin, callable and
bouncetime; a node of another pin is left as it was, `lastcall` included, and
its handler is not invoked; and every call made is the call of a node of `p`,
with that node's callable and channel. -/
theorem dispatch_confined_to_pin (p : Nat) (clock : Nat → Nat) (L : List py_callback) :
    (run_py_callbacks p clock L).visited.length = L.length ∧
    (∀ k e, L[k]? = some e →
      ∃ e1, (run_py_callbacks p clock L).visited[k]? = some e1 ∧ same_but_lastcall e e1 ∧
        (e.gpio ≠ p → e1 = e ∧ invoked k (run_py_callbacks p clock L).calls = false)) ∧
    (∀ c ∈ (run_py_callbacks p clock L).calls,
      ∃ e, L[c.node]? = some e ∧ e.gpio = p ∧ c.py_cb = e.py_cb ∧ c.arg = cstr e.channel) := by
  refine ⟨?_, ?_, fun c hc => calls_are_of_pin p clock L c hc⟩
  · obtain ⟨⟨X, hX, hXn⟩, _⟩ := foldl_extends p L (loop_init clock)
    rw [run_py_callbacks, hX]
    simp [loop_init, hXn]
  · intro k e hk
    by_cases hg : e.gpio = p
    · obtain ⟨tn, _, _, h⟩ := entry_outcome p clock L k e hk hg
      rcases h with ⟨j, _, _, hv, _⟩ | ⟨_, hv, _, _⟩ | ⟨_, hv, _⟩
      · exact ⟨e, hv, ⟨rfl, rfl, rfl, rfl⟩, fun h => absurd hg h⟩
      · exact ⟨e, hv, ⟨rfl, rfl, rfl, rfl⟩, fun h => absurd hg h⟩
      · exact ⟨_, hv, ⟨rfl, rfl, rfl, rfl⟩, fun h => absurd hg h⟩
    · obtain ⟨hv, hi, _⟩ := other_entry_outcome p clock L k e hk hg
      exact ⟨e, hv, ⟨rfl, rfl, rfl, rfl⟩, fun _ => ⟨rfl, hi⟩⟩

end PyGpio
